import Mathlib

/-!
Verification of the card-draw and reading-session state engine of the
tarot-reading application ("studio").  The definitions below are shallow
embeddings of the TypeScript source: `TAROT_DECK`, `fisherYatesShuffle`,
`standardShuffle` and the two `drawCards` entropy-client variants are
translated from `src/lib/tarot.ts` (fallback variant) and
`src/lib/card-images.ts` (unbounded-backoff variant); the clarification
turn logic is translated from the `clarifyTarotReadingFlow` in
`src/ai/flows/suggest-tarot-spread.ts`.  External effects (the HTTP fetch
of the entropy batch, the platform pseudo-random generator, the AI decide
and interpret steps) are modelled as explicit oracle parameters, so every
definition is a pure, executable function.
-/

/-- The fixed ordered catalogue of 78 card identifiers, from `src/lib/tarot.ts`. -/
def TAROT_DECK : List String := [
  "The Fool", "The Magician", "The High Priestess", "The Empress", "The Emperor",
  "The Hierophant", "The Lovers", "The Chariot", "Strength", "The Hermit",
  "Wheel of Fortune", "Justice", "The Hanged Man", "Death", "Temperance",
  "The Devil", "The Tower", "The Star", "The Moon", "The Sun", "Judgement", "The World",
  "Ace of Wands", "Two of Wands", "Three of Wands", "Four of Wands", "Five of Wands",
  "Six of Wands", "Seven of Wands", "Eight of Wands", "Nine of Wands", "Ten of Wands",
  "Page of Wands", "Knight of Wands", "Queen of Wands", "King of Wands",
  "Ace of Cups", "Two of Cups", "Three of Cups", "Four of Cups", "Five of Cups",
  "Six of Cups", "Seven of Cups", "Eight of Cups", "Nine of Cups", "Ten of Cups",
  "Page of Cups", "Knight of Cups", "Queen of Cups", "King of Cups",
  "Ace of Swords", "Two of Swords", "Three of Swords", "Four of Swords", "Five of Swords",
  "Six of Swords", "Seven of Swords", "Eight of Swords", "Nine of Swords", "Ten of Swords",
  "Page of Swords", "Knight of Swords", "Queen of Swords", "King of Swords",
  "Ace of Pentacles", "Two of Pentacles", "Three of Pentacles", "Four of Pentacles", "Five of Pentacles",
  "Six of Pentacles", "Seven of Pentacles", "Eight of Pentacles", "Nine of Pentacles", "Ten of Pentacles",
  "Page of Pentacles", "Knight of Pentacles", "Queen of Pentacles", "King of Pentacles"]

/-- Exchange the entries at positions `i` and `j` of a list; identity when either
index is out of bounds.  This embeds the destructuring-assignment swap
`[d[a], d[b]] = [d[b], d[a]]` used by both shuffles in the source. -/
def listSwap (l : List α) (i j : Nat) : List α :=
  match l.get? i, l.get? j with
  | some a, some b => (l.set i b).set j a
  | _, _ => l

/-- The `while (currentIndex !== 0)` loop of `fisherYatesShuffle`:
`n` is the (constant) deck length, the second argument is `currentIndex`,
and the third is the working copy `shuffledDeck`.  Each iteration reads
`randomNumbers[n - currentIndex]`, reduces it mod `currentIndex`, decrements
`currentIndex` and swaps the entries at `currentIndex` and the reduced index. -/
def fyLoop (randomNumbers : List Nat) (n : Nat) : Nat → List String → List String
  | 0, d => d
  | i + 1, d => fyLoop randomNumbers n i (listSwap d i (randomNumbers.getD (n - (i + 1)) 0 % (i + 1)))

/-- `fisherYatesShuffle` from `src/lib/tarot.ts` / `src/lib/card-images.ts`:
shuffles `deck` using the pre-fetched array `randomNumbers` of random integers. -/
def fisherYatesShuffle (deck : List String) (randomNumbers : List Nat) : List String :=
  fyLoop randomNumbers deck.length deck.length deck

-- Permutation infrastructure -------------------------------------------------

/-- Unfolding equation for `listSwap` when both reads are in bounds. -/
theorem listSwap_eq (l : List α) (i j : Nat) (a b : α)
    (h₁ : l.get? i = some a) (h₂ : l.get? j = some b) :
    listSwap l i j = (l.set i b).set j a := by
  unfold listSwap
  rw [h₁, h₂]

/-- Setting position `i` (holding `a`) to `b` exchanges `a` for `b` up to permutation. -/
theorem set_perm (l : List α) (i : Nat) (a b : α) (h : l.get? i = some a) :
    List.Perm (a :: l.set i b) (b :: l) := by
  induction l generalizing i with
  | nil => simp at h
  | cons x xs ih =>
    cases i with
    | zero =>
      obtain rfl : x = a := by simpa using h
      exact List.Perm.swap b x xs
    | succ k =>
      have h' : xs.get? k = some a := by simpa using h
      have hperm := ih k h'
      have step₁ : List.Perm (a :: (x :: xs).set (k + 1) b) (x :: a :: xs.set k b) := by
        simpa [List.set] using List.Perm.swap x a (xs.set k b)
      have step₂ : List.Perm (x :: a :: xs.set k b) (x :: b :: xs) := hperm.cons x
      have step₃ : List.Perm (x :: b :: xs) (b :: x :: xs) := List.Perm.swap b x xs
      exact (step₁.trans step₂).trans step₃

/-- If `l.get? i = some a` then overwriting position `i` with `a` is a no-op. -/
theorem set_same (l : List α) (i : Nat) (a : α) (h : l.get? i = some a) :
    l.set i a = l := by
  induction l generalizing i with
  | nil => simp at h
  | cons x xs ih =>
    cases i with
    | zero =>
      obtain rfl : x = a := by simpa using h
      rfl
    | succ k =>
      have h' : xs.get? k = some a := by simpa using h
      simp [List.set, ih k h']

/-- `listSwap` always produces a permutation of its input. -/
theorem listSwap_perm (l : List α) (i j : Nat) : List.Perm (listSwap l i j) l := by
  cases h₁ : l.get? i with
  | none =>
    unfold listSwap
    rw [h₁]
  | some a =>
    cases h₂ : l.get? j with
    | none =>
      unfold listSwap
      rw [h₁, h₂]
    | some b =>
      rw [listSwap_eq l i j a b h₁ h₂]
      by_cases hij : i = j
      · subst hij
        rw [h₁] at h₂
        cases h₂
        rw [List.set_set, set_same l i a h₁]
      · have h₂' : (l.set i b).get? j = some b := by
          rw [List.get?_set_ne _ _ hij, h₂]
        have p₁ := set_perm (l.set i b) j b a h₂'
        have p₂ := set_perm l i a b h₁
        exact (p₁.trans p₂).cons_inv

/-- Swapping a position with itself is the identity. -/
theorem listSwap_self (l : List α) (i : Nat) : listSwap l i i = l := by
  cases h : l.get? i with
  | none =>
    unfold listSwap
    rw [h]
  | some a =>
    rw [listSwap_eq l i i a a h h, List.set_set, set_same l i a h]

/-- Each pass of the Fisher–Yates loop permutes the working deck. -/
theorem fyLoop_perm (R : List Nat) (n : Nat) :
    ∀ (i : Nat) (d : List String), List.Perm (fyLoop R n i d) d := by
  intro i
  induction i with
  | zero => intro d; exact List.Perm.refl d
  | succ k ih =>
    intro d
    exact (ih _).trans (listSwap_perm d k _)

/-- The shuffle returns a permutation of the input deck (for any random stream). -/
theorem fisherYatesShuffle_perm (deck : List String) (R : List Nat) :
    List.Perm (fisherYatesShuffle deck R) deck :=
  fyLoop_perm R deck.length deck.length deck

-- Spec-side shuffle (for the refinement claim) --------------------------------

/-- The spec's own wording of the algorithm (§4.1): "standard Fisher-Yates,
iterating the working index `i` from `len(deck)` down to 1; at each step pick
`j = randomInts[len(deck) - i] mod i`, swap positions `i-1` and `j`".  Written
as a fold over the descending index sequence `[len(deck), ..., 1]`, each step
performing exactly one read of `randomInts`. -/
def specFisherYates (deck : List String) (randomInts : List Nat) : List String :=
  ((List.range deck.length).reverse.map (· + 1)).foldl
    (fun d i => listSwap d (i - 1) (randomInts.getD (deck.length - i) 0 % i)) deck

/-- The source's while-loop is the fold over the descending index sequence. -/
theorem fyLoop_eq_foldl (R : List Nat) (n : Nat) :
    ∀ (i : Nat) (d : List String),
      fyLoop R n i d =
        ((List.range i).reverse.map (· + 1)).foldl
          (fun d i => listSwap d (i - 1) (R.getD (n - i) 0 % i)) d := by
  intro i
  induction i with
  | zero => intro d; rfl
  | succ m ih =>
    intro d
    rw [List.range_succ, List.reverse_append, List.reverse_singleton, List.singleton_append,
      List.map_cons, List.foldl_cons, fyLoop]
    exact ih _

/-- The loop only ever reads the first `n` entries of the random stream. -/
theorem fyLoop_take (R : List Nat) (n : Nat) :
    ∀ (i : Nat), i ≤ n → ∀ (d : List String),
      fyLoop R n i d = fyLoop (R.take n) n i d := by
  intro i
  induction i with
  | zero => intro _ d; rfl
  | succ m ih =>
    intro h d
    rw [fyLoop, fyLoop]
    have hidx : n - (m + 1) < n := by omega
    have hgetD : (R.take n).getD (n - (m + 1)) 0 = R.getD (n - (m + 1)) 0 := by
      rw [List.getD_eq_getElem?_getD, List.getD_eq_getElem?_getD,
        List.getElem?_take_of_lt hidx]
    rw [hgetD, ih (by omega)]

/-- The final loop pass (`currentIndex = 1`) reads one more random value but its
swap exchanges position 0 with itself, leaving the deck unchanged. -/
theorem fyLoop_last_step (R : List Nat) (n : Nat) (d : List String) :
    fyLoop R n 1 d = d := by
  rw [fyLoop, Nat.mod_one, fyLoop, listSwap_self]

-- Local fallback shuffle ------------------------------------------------------

/-- The `for (let i = n - 1; i > 0; i--)` loop of `standardShuffle`; the random
index chosen at step `i` — `Math.floor(Math.random() * (i + 1))` in the source,
a value in `[0, i]` — is modelled by the oracle read `rnd i % (i + 1)`. -/
def stdLoop (rnd : Nat → Nat) : Nat → List String → List String
  | 0, d => d
  | i + 1, d => stdLoop rnd i (listSwap d (i + 1) (rnd (i + 1) % (i + 1 + 1)))

/-- `standardShuffle` from `src/lib/tarot.ts`: the local pseudo-random
Fisher-Yates fallback, with the platform random generator as oracle `rnd`. -/
def standardShuffle (deck : List String) (rnd : Nat → Nat) : List String :=
  stdLoop rnd (deck.length - 1) deck

/-- The fallback shuffle also permutes the deck. -/
theorem stdLoop_perm (rnd : Nat → Nat) :
    ∀ (i : Nat) (d : List String), List.Perm (stdLoop rnd i d) d := by
  intro i
  induction i with
  | zero => intro d; exact List.Perm.refl d
  | succ m ih => intro d; exact (ih _).trans (listSwap_perm d _ _)

theorem standardShuffle_perm (deck : List String) (rnd : Nat → Nat) :
    List.Perm (standardShuffle deck rnd) deck :=
  stdLoop_perm rnd _ deck

-- Entropy Source Client -------------------------------------------------------

/-- Outcome of one HTTP attempt against the entropy endpoint, as observed by the
source's `try` block: either the fetch/parse threw (network error, timeout,
JSON parse failure — the `catch` path), or a response arrived with an HTTP-ok
flag, a `success` flag, and an optional `data` array of integers. -/
inductive FetchOutcome where
  | failure : FetchOutcome
  | response (ok : Bool) (success : Bool) (data : Option (List Nat)) : FetchOutcome
deriving DecidableEq

/-- The validation sequence shared by both `drawCards` variants: throw when
`!response.ok`; parse; throw when `!data.success || !data.data ||
data.data.length < deckSize`; otherwise accept the batch.  Returns `some batch`
exactly when the attempt is accepted. -/
def fetchData (o : FetchOutcome) : Option (List Nat) :=
  match o with
  | .failure => none
  | .response ok success data =>
    if !ok then none
    else
      match data with
      | none => none
      | some d => if !success || d.length < TAROT_DECK.length then none else some d

/-- The claim's flat description of a failed attempt: non-successful HTTP
status, false `success` flag, missing or too-short data array, or a
network/timeout error. -/
def attemptFailed (o : FetchOutcome) : Bool :=
  match o with
  | .failure => true
  | .response ok success data =>
    !ok || !success || data.isNone || (data.getD []).length < TAROT_DECK.length

/-- The accepted batch carried by a successful outcome (junk on failures). -/
def outcomeData (o : FetchOutcome) : List Nat :=
  match o with
  | .response _ _ (some d) => d
  | _ => []

/-- `drawCards` from `src/lib/tarot.ts` (bounded single-attempt variant):
attempt one fetch; on success shuffle the full deck with the quantum batch, on
any failure fall back to `standardShuffle` driven by the platform generator
`rnd`; either way return the first `count` cards.  The function is total: no
error value exists in its return type, mirroring the source's catch-all. -/
def drawCardsFallback (count : Nat) (outcome : FetchOutcome) (rnd : Nat → Nat) : List String :=
  match fetchData outcome with
  | some d => (fisherYatesShuffle TAROT_DECK d).take count
  | none => (standardShuffle TAROT_DECK rnd).take count

/-- The backoff delay state of `drawCards` in `src/lib/card-images.ts`:
`backoffDelayMs 0 = 1000` is the initial delay, and after each failure the
source updates `delay = Math.min(delay * 2, maxDelay)` with `maxDelay = 30000`.
`backoffDelayMs (n - 1)` is therefore the delay waited after the n-th
consecutive failure. -/
def backoffDelayMs : Nat → Nat
  | 0 => 1000
  | n + 1 => min (backoffDelayMs n * 2) 30000

/-- The `while (true)` retry loop of `drawCards` in `src/lib/card-images.ts`,
indexed by the trace of attempt outcomes.  `fuel` bounds how many iterations we
unfold; `none` means the loop is still running after `fuel` attempts (the
source would keep retrying — it has no error exit), `some cards` means an
attempt succeeded and the first `count` cards of the quantum shuffle were
returned. -/
def drawCardsBackoff (count : Nat) (outcomes : Nat → FetchOutcome) : Nat → Option (List String)
  | 0 => none
  | fuel + 1 =>
    match fetchData (outcomes 0) with
    | some d => some ((fisherYatesShuffle TAROT_DECK d).take count)
    | none => drawCardsBackoff count (fun n => outcomes (n + 1)) fuel

-- Session Draw Coordinator ----------------------------------------------------

/-- A drawn card: an identifier plus its orientation, as returned by the
`drawCards(count, deck)` coordinator and consumed as `{ name, reversed }`
throughout the flows. -/
structure Card where
  name : String
  reversed : Bool
deriving DecidableEq

/-- Modelled from the spec: the two-argument `drawCards(count, deck)` of
`src/lib/tarot.ts` that every clarification flow imports is absent from the
source tree (only its callers survive).  Per spec §4.3 it obtains an entropy
batch sized to the available deck, shuffles the supplied deck with the
Permutation Engine, takes the first `count` elements, and independently
assigns each an orientation via a separate coin flip.  The entropy batch `R`
and the per-card coin-flip source `flips` are explicit oracles. -/
def drawCards (count : Nat) (deck : List String) (R : List Nat) (flips : Nat → Bool) : List Card :=
  ((fisherYatesShuffle deck R).take count).enum.map (fun p => ⟨p.2, flips p.1⟩)

/-- The Coordinator's `draw(count, excluding)`: the order-preserving filter
`TAROT_DECK.filter(c => !excluding.includes(c))` computed by the callers in
`src/ai/flows/clarify-tarot-reading.ts` / `suggest-tarot-spread.ts`, followed
by the library draw. -/
def coordinatorDraw (count : Nat) (excluding : List String) (R : List Nat)
    (flips : Nat → Bool) : List Card :=
  drawCards count (TAROT_DECK.filter (fun c => !excluding.contains c)) R flips

/-- Modelled from the spec: the session-state owner (§3 SessionState) is the
caller-side accumulator, absent from the source tree; per the spec the only
mutation is union of `allDrawnCardNames` with the names of each DrawResult.
One session step draws with the current exclusion set and appends the names. -/
def sessionStep (state : List String) (req : Nat × List Nat × (Nat → Bool)) : List String :=
  state ++ (coordinatorDraw req.1 state req.2.1 req.2.2).map Card.name

/-- A whole session: fold the draws over the empty initial exclusion set. -/
def sessionRun (reqs : List (Nat × List Nat × (Nat → Bool))) : List String :=
  reqs.foldl sessionStep []

-- Clarification Decision Loop -------------------------------------------------

/-- Which interpretation step a clarification turn hands its result to:
`interpretNewCardsPrompt` (Path A) or `answerWithoutNewCardsPrompt` (Path B)
in `src/ai/flows/suggest-tarot-spread.ts`. -/
inductive InterpPath where
  | withCards : InterpPath
  | withoutCards : InterpPath
deriving DecidableEq

/-- The cards still available given the session state, as computed by the flow:
`TAROT_DECK.filter(c => !input.allDrawnCardNames.includes(c))`. -/
def turnAvailable (state : List String) : List String :=
  TAROT_DECK.filter (fun c => !state.contains c)

/-- The programmatic safety clamp of the flow (step B):
`if (drawCount > availableCardsCount) drawCount = availableCardsCount`. -/
def turnDrawCount (state : List String) (n : Nat) : Nat :=
  if (turnAvailable state).length < n then (turnAvailable state).length else n

/-- The cards a turn draws for a decided count `n`:
`if (drawCount > 0) { actuallyDrawn = await drawCards(drawCount, availableCards) }`. -/
def turnDrawn (state : List String) (n : Nat) (R : List Nat) (flips : Nat → Bool) : List Card :=
  if 0 < turnDrawCount state n then
    drawCards (turnDrawCount state n) (turnAvailable state) R flips
  else []

/-- Modelled from the spec: one clarification turn.  The Decide, Clamp,
Draw-or-skip and two-way interpretation sequencing is translated from
`clarifyTarotReadingFlow` in `src/ai/flows/suggest-tarot-spread.ts`
(`decision = none` is the flow's `!decisionResponse.output` throw, and a `none`
from the invoked interpretation oracle is the corresponding `!textResponse.output`
throw); the append of the drawn names into the caller-owned
`allDrawnCardNames` — whose owning component is absent from the source
tree — is placed per spec §4.4/§7: immediately after a successful draw and
before interpretation, so an interpretation failure does not roll it back.
Returns the session state after the turn, plus `none` when the turn failed at
the Decide step, or the interpretation path taken, the cards drawn, and the
interpretation outcome. -/
def clarificationTurn (state : List String) (decision : Option Nat) (R : List Nat)
    (flips : Nat → Bool) (interpWith : List Card → Option String)
    (interpWithout : Option String) :
    List String × Option (InterpPath × List Card × Option String) :=
  match decision with
  | none => (state, none)
  | some n =>
    let drawnCards := turnDrawn state n R flips
    let state' := state ++ drawnCards.map Card.name
    if 0 < drawnCards.length then
      (state', some (.withCards, drawnCards, interpWith drawnCards))
    else
      (state', some (.withoutCards, drawnCards, interpWithout))

-- Deck and filter facts -------------------------------------------------------

/-- The 78 card identifiers are pairwise distinct. -/
theorem TAROT_DECK_nodup : TAROT_DECK.Nodup := by decide

/-- Filtering by a cons'd exclusion splits into two successive filters. -/
theorem filter_cons_contains (deck : List String) (e : String) (rest : List String) :
    deck.filter (fun c => !(e :: rest).contains c)
      = (deck.filter (fun c => !(c == e))).filter (fun c => !rest.contains c) := by
  rw [List.filter_filter]
  apply List.filter_congr
  intro x _
  simp only [List.contains_cons, Bool.not_or, beq_eq_decide]
  rw [Bool.and_comm]

/-- Removing one element present in a duplicate-free list shortens it by one. -/
theorem length_filter_ne (deck : List String) (e : String) (hd : deck.Nodup)
    (he : e ∈ deck) :
    (deck.filter (fun c => !(c == e))).length + 1 = deck.length := by
  have hsplit := (List.length_eq_length_filter_add (l := deck) (fun c => c == e)).symm
  have hone : (deck.filter (fun c => (c == e))).length = 1 := by
    rw [← List.countP_eq_length_filter]
    have hcount : List.countP (fun c => c == e) deck = List.count e deck := rfl
    rw [hcount]
    exact List.count_eq_one_of_mem hd he
  omega

/-- Order-preserving exclusion of a duplicate-free subset removes exactly its
cardinality. -/
theorem length_filter_not_mem :
    ∀ (excluding deck : List String), deck.Nodup → excluding.Nodup →
      (∀ x ∈ excluding, x ∈ deck) →
      (deck.filter (fun c => !excluding.contains c)).length + excluding.length
        = deck.length := by
  intro excluding
  induction excluding with
  | nil =>
    intro deck _ _ _
    simp
  | cons e rest ih =>
    intro deck hd hn hsub
    rw [filter_cons_contains]
    have hd' : (deck.filter (fun c => !(c == e))).Nodup := hd.filter _
    have hrest : ∀ x ∈ rest, x ∈ deck.filter (fun c => !(c == e)) := by
      intro x hx
      rw [List.mem_filter]
      refine ⟨hsub x (List.mem_cons_of_mem e hx), ?_⟩
      simp only [Bool.not_eq_true', beq_eq_false_iff_ne, ne_eq]
      intro hxe
      subst hxe
      exact (List.nodup_cons.mp hn).1 hx
    have hlen := length_filter_ne deck e hd (hsub e (List.mem_cons_self e rest))
    have hih := ih (deck.filter (fun c => !(c == e))) hd' (List.nodup_cons.mp hn).2 hrest
    simp only [List.length_cons]
    omega

-- Facts about the library draw ------------------------------------------------

/-- The names of a draw are the first `count` cards of the shuffled deck. -/
theorem drawCards_names (count : Nat) (deck : List String) (R : List Nat)
    (flips : Nat → Bool) :
    (drawCards count deck R flips).map Card.name = (fisherYatesShuffle deck R).take count := by
  unfold drawCards
  rw [List.map_map]
  exact List.enum_map_snd _

/-- Mapping an index-only function over an enumeration is a map over the range. -/
theorem enum_map_fst_apply (l : List α) (f : Nat → β) :
    l.enum.map (fun p => f p.1) = (List.range l.length).map f := by
  rw [← List.enum_map_fst l, List.map_map]
  rfl

/-- The orientations of a draw are the coin flips, read per card position. -/
theorem drawCards_reversed (count : Nat) (deck : List String) (R : List Nat)
    (flips : Nat → Bool) :
    (drawCards count deck R flips).map Card.reversed
      = (List.range (min count deck.length)).map flips := by
  unfold drawCards
  rw [List.map_map]
  have h₁ : ((fisherYatesShuffle deck R).take count).length = min count deck.length := by
    rw [List.length_take, (fisherYatesShuffle_perm deck R).length_eq]
  have h₂ := enum_map_fst_apply ((fisherYatesShuffle deck R).take count) flips
  rw [h₁] at h₂
  exact h₂

/-- A draw returns `min count |deck|` cards. -/
theorem drawCards_length (count : Nat) (deck : List String) (R : List Nat)
    (flips : Nat → Bool) :
    (drawCards count deck R flips).length = min count deck.length := by
  unfold drawCards
  rw [List.length_map, List.enum_length, List.length_take,
    (fisherYatesShuffle_perm deck R).length_eq]

-- Claim C2 --------------------------------------------------------------------

/-- Claim C2: for every deck `D` and random-int sequence `R` of sufficient
length (at least `|D|`), `fisherYatesShuffle D R` is a permutation of `D`: the
output is exactly the same multiset of elements as the input. -/
theorem c2_shuffle_permutation (deck : List String) (R : List Nat)
    (h : deck.length ≤ R.length) :
    List.Perm (fisherYatesShuffle deck R) deck ∧
      ((fisherYatesShuffle deck R : List String) : Multiset String)
        = (deck : Multiset String) :=
  ⟨fisherYatesShuffle_perm deck R, Multiset.coe_eq_coe.mpr (fisherYatesShuffle_perm deck R)⟩

/-- Witness for C2 at a concrete deck and random stream. -/
theorem c2_shuffle_permutation_witness :
    List.Perm (fisherYatesShuffle ["a", "b", "c"] [5, 3, 7]) ["a", "b", "c"] ∧
      ((fisherYatesShuffle ["a", "b", "c"] [5, 3, 7] : List String) : Multiset String)
        = (["a", "b", "c"] : Multiset String) :=
  c2_shuffle_permutation ["a", "b", "c"] [5, 3, 7] (by decide)

-- Claim C10 -------------------------------------------------------------------

/-- Claim C10: the shuffle is deterministic — two calls with identical deck and
random-int sequence yield identical outputs. -/
theorem c10_shuffle_deterministic (d₁ d₂ : List String) (R₁ R₂ : List Nat)
    (hd : d₁ = d₂) (hR : R₁ = R₂) :
    fisherYatesShuffle d₁ R₁ = fisherYatesShuffle d₂ R₂ := by
  rw [hd, hR]

/-- Witness for C10 at a concrete deck and random stream. -/
theorem c10_shuffle_deterministic_witness :
    fisherYatesShuffle ["x", "y"] [1, 2] = fisherYatesShuffle ["x", "y"] [1, 2] :=
  c10_shuffle_deterministic ["x", "y"] ["x", "y"] [1, 2] [1, 2] rfl rfl

-- Claim C6 --------------------------------------------------------------------

/-- Claim C6: the implemented shuffle performs exactly the spec's Fisher-Yates
steps — the descending-index fold picking `j = randomInts[len(deck) - i] mod i`
and swapping positions `i-1` and `j`; it reads only the first `len(deck)`
entries of `randomInts` (one per step), and the final step (`i = 1`) is a
wasted read whose swap exchanges position 0 with itself, leaving the deck
unchanged. -/
theorem c6_shuffle_refines_spec (deck : List String) (R : List Nat)
    (h : deck.length ≤ R.length) :
    fisherYatesShuffle deck R = specFisherYates deck R ∧
      fisherYatesShuffle deck R = fisherYatesShuffle deck (R.take deck.length) ∧
      fyLoop R deck.length 1 = id := by
  refine ⟨?_, ?_, ?_⟩
  · exact fyLoop_eq_foldl R deck.length deck.length deck
  · exact fyLoop_take R deck.length deck.length le_rfl deck
  · funext d
    exact fyLoop_last_step R deck.length d

/-- Witness for C6 at a concrete deck and random stream. -/
theorem c6_shuffle_refines_spec_witness :
    fisherYatesShuffle ["a", "b"] [4, 9] = specFisherYates ["a", "b"] [4, 9] ∧
      fisherYatesShuffle ["a", "b"] [4, 9]
        = fisherYatesShuffle ["a", "b"] ([4, 9].take (["a", "b"] : List String).length) ∧
      fyLoop [4, 9] (["a", "b"] : List String).length 1 = id :=
  c6_shuffle_refines_spec ["a", "b"] [4, 9] (by decide)

-- Claim C1 --------------------------------------------------------------------

/-- Drawn names come from the exclusion-filtered deck. -/
theorem coordinatorDraw_names_subset (count : Nat) (excluding : List String)
    (R : List Nat) (flips : Nat → Bool) :
    ∀ x ∈ (coordinatorDraw count excluding R flips).map Card.name,
      x ∈ TAROT_DECK.filter (fun c => !excluding.contains c) := by
  intro x hx
  rw [coordinatorDraw, drawCards_names] at hx
  exact (fisherYatesShuffle_perm _ R).mem_iff.mp (List.mem_of_mem_take hx)

/-- Drawn names avoid the exclusion set. -/
theorem coordinatorDraw_names_not_excluded (count : Nat) (excluding : List String)
    (R : List Nat) (flips : Nat → Bool) :
    ∀ x ∈ (coordinatorDraw count excluding R flips).map Card.name, x ∉ excluding := by
  intro x hx
  have hmem := coordinatorDraw_names_subset count excluding R flips x hx
  rw [List.mem_filter] at hmem
  simpa using hmem.2

/-- Drawn names are pairwise distinct. -/
theorem coordinatorDraw_names_nodup (count : Nat) (excluding : List String)
    (R : List Nat) (flips : Nat → Bool) :
    ((coordinatorDraw count excluding R flips).map Card.name).Nodup := by
  rw [coordinatorDraw, drawCards_names]
  exact List.Nodup.sublist (List.take_sublist _ _)
    (((fisherYatesShuffle_perm _ _).nodup_iff).mpr (TAROT_DECK_nodup.filter _))

/-- One session step preserves distinctness of the accumulated names. -/
theorem sessionStep_nodup (state : List String) (req : Nat × List Nat × (Nat → Bool))
    (h : state.Nodup) : (sessionStep state req).Nodup := by
  unfold sessionStep
  refine List.Nodup.append h (coordinatorDraw_names_nodup _ _ _ _) ?_
  intro a ha hb
  exact coordinatorDraw_names_not_excluded _ _ _ _ a hb ha

/-- Folding session steps from a duplicate-free state stays duplicate-free. -/
theorem sessionFold_nodup :
    ∀ (reqs : List (Nat × List Nat × (Nat → Bool))) (state : List String),
      state.Nodup → (reqs.foldl sessionStep state).Nodup := by
  intro reqs
  induction reqs with
  | nil => intro state h; exact h
  | cons r rs ih =>
    intro state h
    exact ih _ (sessionStep_nodup state r h)

/-- Claim C1: the identifiers in a Coordinator draw are pairwise distinct and
disjoint from the exclusion set (no returned name survives a filter by
membership in `excluding`), and consequently the union of returned identifiers
over any sequence of draws in one session contains no duplicates. -/
theorem c1_draw_exclusion_invariant :
    (∀ (count : Nat) (excluding : List String) (R : List Nat) (flips : Nat → Bool),
        ((coordinatorDraw count excluding R flips).map Card.name).Nodup ∧
          ((coordinatorDraw count excluding R flips).map Card.name).filter
              (fun x => excluding.contains x) = []) ∧
      ∀ reqs : List (Nat × List Nat × (Nat → Bool)), (sessionRun reqs).Nodup := by
  constructor
  · intro count excluding R flips
    refine ⟨coordinatorDraw_names_nodup count excluding R flips, ?_⟩
    rw [List.filter_eq_nil]
    intro a ha
    have hnot := coordinatorDraw_names_not_excluded count excluding R flips a ha
    simpa using hnot
  · intro reqs
    exact sessionFold_nodup reqs [] List.nodup_nil

-- Claim C3 --------------------------------------------------------------------

/-- Claim C3: when the requested `count` exceeds the available cards
(`DeckSize - |excluding|`), the draw clamps instead of failing: exactly
`DeckSize - |excluding|` cards are returned.  (The operation is a total
function — no error value exists in its type.) -/
theorem c3_draw_clamps (count : Nat) (excluding : List String) (R : List Nat)
    (flips : Nat → Bool) (hnd : excluding.Nodup)
    (hsub : ∀ x ∈ excluding, x ∈ TAROT_DECK)
    (hcount : TAROT_DECK.length - excluding.length < count) :
    (coordinatorDraw count excluding R flips).length
      = TAROT_DECK.length - excluding.length := by
  have havail := length_filter_not_mem excluding TAROT_DECK TAROT_DECK_nodup hnd hsub
  rw [coordinatorDraw, drawCards_length]
  omega

/-- Witness for C3: requesting 100 cards with one card excluded yields 77. -/
theorem c3_draw_clamps_witness :
    (coordinatorDraw 100 ["The Fool"] [] (fun _ => false)).length
      = TAROT_DECK.length - (["The Fool"] : List String).length :=
  c3_draw_clamps 100 ["The Fool"] [] (fun _ => false) (by decide) (by decide) (by decide)

-- Claim C7 --------------------------------------------------------------------

/-- Claim C7: every drawn card carries an orientation boolean; the i-th card's
orientation is the i-th value of the separate coin-flip source `flips`, so the
orientation sequence is independent of the shuffle's entropy batch `R`, and
the card names are independent of the coin flips. -/
theorem c7_orientation_coin_flips :
    ∀ (count : Nat) (deck : List String) (R R' : List Nat) (flips flips' : Nat → Bool),
      (drawCards count deck R flips).map Card.reversed
          = (List.range (drawCards count deck R flips).length).map flips ∧
        (drawCards count deck R flips).map Card.reversed
          = (drawCards count deck R' flips).map Card.reversed ∧
        (drawCards count deck R flips).map Card.name
          = (drawCards count deck R flips').map Card.name := by
  intro count deck R R' flips flips'
  refine ⟨?_, ?_, ?_⟩
  · rw [drawCards_reversed, drawCards_length]
  · rw [drawCards_reversed, drawCards_reversed]
  · rw [drawCards_names, drawCards_names]

-- Claim C4 --------------------------------------------------------------------

/-- Claim C4: under the fallback policy `drawCards` never surfaces an error —
its return type has no error value, an attempt is failed exactly when the HTTP
status is not ok, the `success` flag is false, the data array is missing or
shorter than the deck size, or a network/timeout error occurred, and on every
such failure the result is the first `count` cards of the local pseudo-random
shuffle. -/
theorem c4_fallback_never_errors :
    ∀ (count : Nat) (outcome : FetchOutcome) (rnd : Nat → Nat),
      drawCardsFallback count outcome rnd =
        if attemptFailed outcome then (standardShuffle TAROT_DECK rnd).take count
        else (fisherYatesShuffle TAROT_DECK (outcomeData outcome)).take count := by
  intro count outcome rnd
  cases outcome with
  | failure => rfl
  | response ok success data =>
    cases ok with
    | false => cases success <;> cases data <;> rfl
    | true =>
      cases success with
      | false => cases data <;> rfl
      | true =>
        cases data with
        | none => rfl
        | some d =>
          by_cases hlen : d.length < TAROT_DECK.length <;>
            simp [drawCardsFallback, fetchData, attemptFailed, outcomeData, hlen]

-- Claim C5 --------------------------------------------------------------------

/-- With failures before index `k` and success at `k`, any sufficient fuel
makes the retry loop return the `k`-th batch's shuffle. -/
theorem drawCardsBackoff_succeeds (count : Nat) (d : List Nat) :
    ∀ (k : Nat) (outcomes : Nat → FetchOutcome),
      (∀ i, i < k → fetchData (outcomes i) = none) →
      fetchData (outcomes k) = some d →
      ∀ fuel, k < fuel →
        drawCardsBackoff count outcomes fuel
          = some ((fisherYatesShuffle TAROT_DECK d).take count) := by
  intro k
  induction k with
  | zero =>
    intro outcomes _ hsucc fuel hfuel
    match fuel, hfuel with
    | fuel + 1, _ =>
      unfold drawCardsBackoff
      rw [hsucc]
  | succ m ih =>
    intro outcomes hfail hsucc fuel hfuel
    match fuel, hfuel with
    | fuel + 1, hfuel =>
      unfold drawCardsBackoff
      rw [hfail 0 (Nat.succ_pos m)]
      exact ih (fun n => outcomes (n + 1)) (fun i hi => hfail (i + 1) (by omega)) hsucc
        fuel (by omega)

/-- If every attempt fails the loop is still retrying after any fuel. -/
theorem drawCardsBackoff_all_fail (count : Nat) :
    ∀ (fuel : Nat) (outcomes : Nat → FetchOutcome),
      (∀ i, fetchData (outcomes i) = none) →
      drawCardsBackoff count outcomes fuel = none := by
  intro fuel
  induction fuel with
  | zero => intro _ _; rfl
  | succ m ih =>
    intro outcomes h
    unfold drawCardsBackoff
    rw [h 0]
    exact ih _ (fun i => h (i + 1))

/-- The recurrence `delay = min(delay * 2, 30000)` from 1000 solves to
`min(1000 * 2 ^ n, 30000)`. -/
theorem backoffDelayMs_closed_form : ∀ n, backoffDelayMs n = min (1000 * 2 ^ n) 30000 := by
  intro n
  induction n with
  | zero => decide
  | succ m ih =>
    rw [backoffDelayMs, ih, pow_succ]
    have hx : 1 ≤ 2 ^ m := Nat.one_le_two_pow
    generalize 2 ^ m = x at hx ⊢
    omega

/-- Claim C5: under the unbounded-backoff policy the client waits
`min(1 * 2^(n-1), 30)` seconds after the n-th consecutive failure
(`backoffDelayMs (n-1)` milliseconds) — in particular 1s, 2s, 4s after the
first three failures — the delay never exceeds the 30-second cap, and the
client retries until an attempt succeeds, returning that batch's shuffle; no
error exit exists, and while every attempt fails it is still retrying at any
point of the trace. -/
theorem c5_backoff_policy (outcomes : Nat → FetchOutcome) (count k : Nat) (d : List Nat)
    (hfail : ∀ i, i < k → fetchData (outcomes i) = none)
    (hsucc : fetchData (outcomes k) = some d) :
    backoffDelayMs 0 = 1000 ∧
      backoffDelayMs 1 = 2000 ∧
      backoffDelayMs 2 = 4000 ∧
      (∀ n, backoffDelayMs n = min (1000 * 2 ^ n) 30000) ∧
      (∀ n, backoffDelayMs n ≤ 30000) ∧
      (∀ fuel, k < fuel →
        drawCardsBackoff count outcomes fuel
          = some ((fisherYatesShuffle TAROT_DECK d).take count)) ∧
      (∀ (outcomes' : Nat → FetchOutcome) fuel,
        (∀ i, fetchData (outcomes' i) = none) →
        drawCardsBackoff count outcomes' fuel = none) := by
  refine ⟨by decide, by decide, by decide, backoffDelayMs_closed_form, ?_, ?_, ?_⟩
  · intro n
    rw [backoffDelayMs_closed_form n]
    omega
  · intro fuel hfuel
    exact drawCardsBackoff_succeeds count d k outcomes hfail hsucc fuel hfuel
  · intro outcomes' fuel hall
    exact drawCardsBackoff_all_fail count fuel outcomes' hall

/-- Witness for C5: three failures then a success — the delay after the third
failure is 4000 ms and the loop returns the successful batch's shuffle. -/
theorem c5_backoff_policy_witness :
    backoffDelayMs 2 = 4000 ∧
      drawCardsBackoff 5
          (fun i => if i < 3 then FetchOutcome.failure
            else FetchOutcome.response true true (some (List.range 78))) 4
        = some ((fisherYatesShuffle TAROT_DECK (List.range 78)).take 5) := by
  have h := c5_backoff_policy
    (fun i => if i < 3 then FetchOutcome.failure
      else FetchOutcome.response true true (some (List.range 78)))
    5 3 (List.range 78) (by decide) (by decide)
  exact ⟨h.2.2.1, h.2.2.2.2.2.1 4 (by omega)⟩

-- Claim C8 --------------------------------------------------------------------

/-- Claim C8: a failed Decide step fails the turn with `allDrawnCardNames`
unmodified and no draw performed, while after a successful decision the drawn
names are appended to the session state before interpretation — the state
update is the same whatever the interpretation oracles return, so a later
interpretation failure does not roll the draw back. -/
theorem c8_turn_commit_order :
    ∀ (state : List String) (R : List Nat) (flips : Nat → Bool)
      (interpWith : List Card → Option String) (interpWithout : Option String),
      clarificationTurn state none R flips interpWith interpWithout = (state, none) ∧
        ∀ n, (clarificationTurn state (some n) R flips interpWith interpWithout).1
            = state ++ (turnDrawn state n R flips).map Card.name := by
  intro state R flips iW iWo
  refine ⟨rfl, fun n => ?_⟩
  unfold clarificationTurn
  by_cases h : 0 < (turnDrawn state n R flips).length <;> simp [h]

-- Claim C9 --------------------------------------------------------------------

/-- Claim C9: when the decided draw count is 0 the turn draws nothing — the
drawn-card list is empty, the session state is returned unchanged, and the
turn is handed to the answer-without-new-cards interpretation step. -/
theorem c9_zero_draw_path :
    ∀ (state : List String) (R : List Nat) (flips : Nat → Bool)
      (interpWith : List Card → Option String) (interpWithout : Option String),
      clarificationTurn state (some 0) R flips interpWith interpWithout
        = (state, some (InterpPath.withoutCards, [], interpWithout)) := by
  intro state R flips iW iWo
  unfold clarificationTurn turnDrawn turnDrawCount
  simp
